import Mathlib

/-!
Verification of the PathMe identifier-resolution and statistics engine.

Shallow embedding of the Python sources:
  src/pathme/utils.py                (URI decomposer, statistics aggregator, tabular exporter)
  src/pathme/wikipathways/utils.py   (WikiPathways identifier resolver, multigraph builder)
  src/pathme/reactome/utils.py       (Reactome identifier resolver)

Python dictionaries are modelled as association lists in insertion order,
Python sets of strings as duplicate-free lists up to membership, external
lookup services (bio2bel managers, pybel graph summaries) as record types of
abstract capabilities, and raised exceptions as Except errors.
-/

namespace PathMe

/-! ## Namespace constants

The module pathme/constants.py is not part of the sources at hand; only its
names are imported by the files above.  The concrete string values are
irrelevant to every property below: all that matters is that the constants
are pairwise distinct and distinct from the literal "hgnc_multiple_entry".
-/

/-- Modelled from the spec: the HGNC namespace tag of pathme/constants.py
(the spec fixes the namespace enumeration, not the literal values). -/
def HGNC : String := "hgnc"

/-- Modelled from the spec: the Entrez namespace tag of pathme/constants.py. -/
def ENTREZ : String := "ncbigene"

/-- Modelled from the spec: the UniProt namespace tag of pathme/constants.py. -/
def UNIPROT : String := "uniprot"

/-- Modelled from the spec: the Ensembl namespace tag of pathme/constants.py. -/
def ENSEMBL : String := "ensembl"

/-- Modelled from the spec: the Expasy namespace tag of pathme/constants.py. -/
def EXPASY : String := "expasy"

/-- Modelled from the spec: the WikiPathways namespace tag of pathme/constants.py. -/
def WIKIPATHWAYS : String := "wikipathways"

/-! ## Python helpers

Helpers mirroring the Python string and list primitives used by the sources. -/

/-- Splits a list of characters at every occurrence of the separator,
keeping empty chunks, as Python str.split does with an explicit separator;
the empty input yields one empty chunk. -/
def splitCharsAux (sep : Char) : List Char → List (List Char)
  | [] => [[]]
  | c :: rest =>
    match splitCharsAux sep rest with
    | [] => [[]]
    | g :: gs => if c = sep then [] :: g :: gs else (c :: g) :: gs

/-- Python str.split with a one-character separator (here always "/"). -/
def pySplit (s : String) (sep : Char) : List String :=
  (splitCharsAux sep s.data).map (fun cs => String.mk cs)

/-- Whether the second list is an initial segment of the first. -/
def listStartsWith : List Char → List Char → Bool
  | _, [] => true
  | [], _ :: _ => false
  | a :: as, b :: bs => a = b && listStartsWith as bs

/-- Whether pat occurs as a contiguous sublist of l. -/
def listContainsSub (l pat : List Char) : Bool :=
  listStartsWith l pat ||
    match l with
    | [] => false
    | _ :: rest => listContainsSub rest pat

/-- Python substring membership: pat in s. -/
def pyInStr (pat s : String) : Bool :=
  listContainsSub s.data pat.data

/-- Python negative indexing: the k-th element from the end of a list,
together with the bound check that makes an out-of-range access raise
IndexError (modelled as Option.none). -/
def pyGetNeg (l : List α) (k : Nat) : Option α :=
  if k ≤ l.length then l.get? (l.length - k) else Option.none

/-- Python slice with a nonnegative start and negative stop, as in
splitted_uri with slice 3 to -2: drop a elements in front, stop b elements
before the end.  Slices never raise. -/
def pySliceNeg (l : List α) (a b : Nat) : List α :=
  (l.drop a).take (l.length - b - a)

/-! ## URI decomposer (pathme/utils.py, parse_id_uri) -/

/-- Failure of the URI decomposer.  The source indexes splitted_uri at
position -2, which raises on a URI that splits into fewer than two
segments; the spec names this structural failure MalformedURIError. -/
inductive URIError where
  | malformedURI
deriving DecidableEq, Repr

/-- Embeds parse_id_uri of pathme/utils.py: split the URI on "/", join the
first three segments as the prefix, join the segments from position 3 up to
the second-to-last as the intermediate namespace path, and take the
second-to-last and last segments as namespace and identifier. -/
def parse_id_uri (uri : String) : Except URIError (String × String × String × String) :=
  let splitted_uri := pySplit uri '/'
  let pref := "/".intercalate (splitted_uri.take 3)
  let prefNs := "/".intercalate (pySliceNeg splitted_uri 3 2)
  match pyGetNeg splitted_uri 2, pyGetNeg splitted_uri 1 with
  | some ns, some ident => Except.ok (pref, prefNs, ns, ident)
  | _, _ => Except.error URIError.malformedURI

/-- Auxiliary: dropping the last two elements is the Python slice that stops
two before the end. -/
theorem pySliceNeg_eq_dropLast (l : List α) (a : Nat) :
    pySliceNeg l a 2 = (l.drop a).dropLast.dropLast := by
  unfold pySliceNeg
  rw [List.dropLast_eq_take, List.dropLast_eq_take, List.take_take,
    List.length_take, List.length_drop]
  congr 1
  omega

/-- Claim C9: a slash-delimited URI with fewer than two segments after
splitting makes parse_id_uri fail with MalformedURIError; with at least two
segments it returns the first three segments joined, the segments between
the third and the second-to-last joined, the second-to-last segment and the
last segment. -/
theorem parse_id_uri_contract (uri : String) :
    ((pySplit uri '/').length < 2 →
      parse_id_uri uri = Except.error URIError.malformedURI) ∧
    (∀ h : 2 ≤ (pySplit uri '/').length,
      parse_id_uri uri = Except.ok
        ("/".intercalate ((pySplit uri '/').take 3),
         "/".intercalate (((pySplit uri '/').drop 3).dropLast.dropLast),
         (pySplit uri '/').get ⟨(pySplit uri '/').length - 2, by omega⟩,
         (pySplit uri '/').get ⟨(pySplit uri '/').length - 1, by omega⟩)) := by
  constructor
  · intro hlt
    unfold parse_id_uri pyGetNeg
    simp only
    rw [if_neg (by omega)]
  · intro h
    unfold parse_id_uri pyGetNeg
    simp only
    rw [if_pos (by omega), if_pos (by omega), pySliceNeg_eq_dropLast]
    rw [List.get?_eq_get (by omega), List.get?_eq_get (by omega)]

/-- Claim C9 witness: a one-segment URI fails with MalformedURIError, and a
well-formed WikiPathways interaction URI decomposes into its four parts. -/
theorem parse_id_uri_contract_witness :
    parse_id_uri "abc" = Except.error URIError.malformedURI ∧
    parse_id_uri "http://rdf.wikipathways.org/Pathway/WP22_r97775/Interaction/c562c"
      = Except.ok ("http://rdf.wikipathways.org",
                   "Pathway/WP22_r97775",
                   "Interaction",
                   "c562c") := by
  constructor
  · exact (parse_id_uri_contract "abc").1 (by decide)
  · have h := (parse_id_uri_contract
      "http://rdf.wikipathways.org/Pathway/WP22_r97775/Interaction/c562c").2 (by decide)
    rw [h]
    rfl

/-! ## Dictionaries

Python dict lookup over association lists (keys are unique in every dict the
sources build, and lookup returns the first binding). -/

/-- Python dict lookup: the value bound to k, if any. -/
def dictLookup (d : List (String × α)) (k : String) : Option α :=
  match d with
  | [] => Option.none
  | (k2, v) :: rest => if k2 = k then some v else dictLookup rest k

/-! ## WikiPathways identifier resolver (pathme/wikipathways/utils.py)

The external gene-lookup service (bio2bel_hgnc Manager) is an excluded
collaborator; following the interface contract of the spec it is modelled
as a record of abstract capabilities.  A query either returns one gene
entry, a list of entries (UniProt queries), or no match (Python None). -/

/-- A gene entry exposed by the lookup service: symbol and identifier. -/
structure Gene where
  symbol : String
  identifier : String
deriving DecidableEq, Repr

/-- Result of a lookup-service query: None, a single gene entry, or a list
of gene entries. -/
inductive QueryResult where
  | pynone
  | gene (g : Gene)
  | genes (gs : List Gene)
deriving DecidableEq, Repr

/-- Injects a single-entry-or-None query result into QueryResult. -/
def singleResult : Option Gene → QueryResult
  | Option.none => QueryResult.pynone
  | some g => QueryResult.gene g

/-- Modelled from the spec: the GeneLookupService interface of the excluded
bio2bel_hgnc Manager collaborator.  by_hgnc_symbol, by_entrez_id,
by_hgnc_alias and by_ensembl_id return a gene or none; by_uniprot_id may
also return a list of genes. -/
structure HgncManager where
  get_gene_by_hgnc_symbol : String → Option Gene
  get_gene_by_entrez_id : String → Option Gene
  get_gene_by_uniprot_id : String → QueryResult
  get_hgnc_from_alias_symbol : String → Option Gene
  get_gene_by_ensembl_id : String → Option Gene

/-- Embeds _get_update_alias_symbol of pathme/wikipathways/utils.py: query
the alias-symbol capability; on a miss keep the original identifier under
the original namespace (the source also logs a warning), otherwise return
the current HGNC symbol and identifier. -/
def _get_update_alias_symbol (hgnc_manager : HgncManager)
    (original_identifier original_ns : String) : String × String × String :=
  match hgnc_manager.get_hgnc_from_alias_symbol original_identifier with
  | Option.none => (original_ns, original_identifier, original_identifier)
  | some query_result => (HGNC, query_result.symbol, query_result.identifier)

/-- Embeds _validate_query of pathme/wikipathways/utils.py.  A falsy query
result (None or the empty list) with original namespace HGNC goes through
the alias fallback; any other falsy result keeps the original identifier
under the original namespace (with a warning).  A truthy result is a gene
entry or a nonempty list: the source takes element 0 of a list, merely
logging a warning when the list has more than one entry, and returns the
HGNC triple of that entry. -/
def _validate_query (hgnc_manager : HgncManager) (query_result : QueryResult)
    (original_identifier original_ns : String) : String × String × String :=
  match query_result with
  | QueryResult.pynone =>
    if original_ns = HGNC then
      _get_update_alias_symbol hgnc_manager original_identifier HGNC
    else
      (original_ns, original_identifier, original_identifier)
  | QueryResult.genes [] =>
    if original_ns = HGNC then
      _get_update_alias_symbol hgnc_manager original_identifier HGNC
    else
      (original_ns, original_identifier, original_identifier)
  | QueryResult.gene g => (HGNC, g.symbol, g.identifier)
  | QueryResult.genes (g :: _) => (HGNC, g.symbol, g.identifier)

/-- Failures of get_valid_gene_identifier: the Python KeyError raised by an
unconditional dict subscript of a missing key, and the final raise on a
record no branch matches (named UnresolvedIdentifierError by the spec). -/
inductive ResolverError where
  | keyError (key : String)
  | unresolvedIdentifier
deriving DecidableEq, Repr

/-- A raw entity record: the node dictionary of string keys and values. -/
abbrev NodeDict := List (String × String)

/-- Embeds get_valid_gene_identifier of pathme/wikipathways/utils.py with
its branches in source order: bdb_hgncsymbol, bdb_ncbigene (Entrez), then
bdb_uniprot; then the Ensembl-commented branch, which tests bdb_ncbigene a
second time (unreachable after the Entrez branch) and queries
get_gene_by_uniprot_id; then the ec-code test, which subscripts uri_id
unconditionally (KeyError when absent); then the bdb_wikidata catch-all;
and finally the raise the spec names UnresolvedIdentifierError. -/
def get_valid_gene_identifier (node_ids_dict : NodeDict) (hgnc_manager : HgncManager) :
    Except ResolverError (String × String × String) :=
  match dictLookup node_ids_dict "bdb_hgncsymbol" with
  | some hgnc_symbol =>
    Except.ok (_validate_query hgnc_manager
      (singleResult (hgnc_manager.get_gene_by_hgnc_symbol hgnc_symbol)) hgnc_symbol HGNC)
  | Option.none =>
  match dictLookup node_ids_dict "bdb_ncbigene" with
  | some entrez_id =>
    Except.ok (_validate_query hgnc_manager
      (singleResult (hgnc_manager.get_gene_by_entrez_id entrez_id)) entrez_id ENTREZ)
  | Option.none =>
  match dictLookup node_ids_dict "bdb_uniprot" with
  | some uniprot_id =>
    Except.ok (_validate_query hgnc_manager
      (hgnc_manager.get_gene_by_uniprot_id uniprot_id) uniprot_id UNIPROT)
  | Option.none =>
  match dictLookup node_ids_dict "bdb_ncbigene" with
  | some ensembl_id =>
    Except.ok (_validate_query hgnc_manager
      (hgnc_manager.get_gene_by_uniprot_id ensembl_id) ensembl_id ENSEMBL)
  | Option.none =>
  match dictLookup node_ids_dict "uri_id" with
  | Option.none => Except.error (ResolverError.keyError "uri_id")
  | some uri_id =>
  if pyInStr "ec-code" uri_id then
    match dictLookup node_ids_dict "name" with
    | Option.none => Except.error (ResolverError.keyError "name")
    | some ec_number => Except.ok (EXPASY, ec_number, ec_number)
  else
  match dictLookup node_ids_dict "bdb_wikidata" with
  | some _ =>
    match dictLookup node_ids_dict "name" with
    | Option.none => Except.error (ResolverError.keyError "name")
    | some nm =>
      match hgnc_manager.get_gene_by_hgnc_symbol nm with
      | some hgnc_entry => Except.ok (HGNC, hgnc_entry.symbol, hgnc_entry.identifier)
      | Option.none => Except.ok (WIKIPATHWAYS, nm, nm)
  | Option.none => Except.error ResolverError.unresolvedIdentifier

/-- A lookup service with no data at all: every query misses. -/
def emptyManager : HgncManager where
  get_gene_by_hgnc_symbol := fun _ => Option.none
  get_gene_by_entrez_id := fun _ => Option.none
  get_gene_by_uniprot_id := fun _ => QueryResult.pynone
  get_hgnc_from_alias_symbol := fun _ => Option.none
  get_gene_by_ensembl_id := fun _ => Option.none

/-- Two gene entries matched by one UniProt identifier. -/
def geneAKT1 : Gene := { symbol := "AKT1", identifier := "391" }

/-- Second candidate entry for the ambiguous UniProt lookup. -/
def geneAKT2 : Gene := { symbol := "AKT2", identifier := "392" }

/-- A lookup service whose UniProt query returns two candidate entries. -/
def multiMatchManager : HgncManager :=
  { emptyManager with
    get_gene_by_uniprot_id := fun _ => QueryResult.genes [geneAKT1, geneAKT2] }

/-- Claim C1 counterexample: for the record with only the UniProt hint
P31749 against a lookup returning the two candidates AKT1 and AKT2, the
resolver returns the first candidate under the HGNC namespace, not the
ambiguous tag with the full two-candidate collection. -/
theorem uniprot_multi_counterexample :
    get_valid_gene_identifier [("bdb_uniprot", "P31749")] multiMatchManager
      = Except.ok (HGNC, "AKT1", "391") ∧ HGNC ≠ "hgnc_multiple_entry" := by
  constructor
  · rfl
  · decide

/-- Claim C1 (amended): for every record whose first matching hint is a
UniProt hint, when the lookup returns a list with more than one candidate
the WikiPathways resolver logs a warning, silently keeps only candidate
zero, and returns its triple under the HGNC namespace; the tag
hgnc_multiple_entry and the full candidate collection are never produced
by this resolver. -/
theorem uniprot_multi_first_candidate (d : NodeDict) (m : HgncManager)
    (u : String) (g : Gene) (gs : List Gene)
    (h1 : dictLookup d "bdb_hgncsymbol" = Option.none)
    (h2 : dictLookup d "bdb_ncbigene" = Option.none)
    (h3 : dictLookup d "bdb_uniprot" = some u)
    (h4 : m.get_gene_by_uniprot_id u = QueryResult.genes (g :: gs))
    (_h5 : gs ≠ []) :
    get_valid_gene_identifier d m = Except.ok (HGNC, g.symbol, g.identifier) := by
  unfold get_valid_gene_identifier
  simp only [h1, h2, h3, h4]
  rfl

/-- Claim C1 witness: the amended statement at the concrete two-candidate
input. -/
theorem uniprot_multi_first_candidate_witness :
    get_valid_gene_identifier [("bdb_uniprot", "P31749")] multiMatchManager
      = Except.ok (HGNC, geneAKT1.symbol, geneAKT1.identifier) :=
  uniprot_multi_first_candidate [("bdb_uniprot", "P31749")] multiMatchManager
    "P31749" geneAKT1 [geneAKT2] rfl rfl rfl rfl (by decide)

/-- Claim C3: the resolver output never depends on the Ensembl lookup
capability.  The Ensembl-commented branch of the source re-tests the key
bdb_ncbigene (already consumed by the Entrez branch) and queries
get_gene_by_uniprot_id, so no record is ever resolved against the Ensembl
capability, contradicting the stated contract. -/
theorem ensembl_capability_never_queried (d : NodeDict) (m : HgncManager)
    (f : String → Option Gene) :
    get_valid_gene_identifier d { m with get_gene_by_ensembl_id := f }
      = get_valid_gene_identifier d m := by
  cases m
  rfl

/-- Claim C4 counterexample: the record with no keys at all makes the
resolver fail with the KeyError of the uri_id subscript, not with the
unresolved-identifier failure the claim names. -/
theorem no_hint_counterexample :
    get_valid_gene_identifier [] emptyManager
        = Except.error (ResolverError.keyError "uri_id") ∧
      ResolverError.keyError "uri_id" ≠ ResolverError.unresolvedIdentifier := by
  constructor
  · rfl
  · decide

/-- Claim C4 (amended): every record that carries none of the hint keys
bdb_hgncsymbol, bdb_ncbigene, bdb_uniprot and bdb_wikidata but does carry a
uri_id key whose value has no ec-code marker makes the resolver fail with
the unresolved-identifier error rather than return a triple or silently
drop the entity. -/
theorem no_hint_unresolved (d : NodeDict) (m : HgncManager) (uri : String)
    (h1 : dictLookup d "bdb_hgncsymbol" = Option.none)
    (h2 : dictLookup d "bdb_ncbigene" = Option.none)
    (h3 : dictLookup d "bdb_uniprot" = Option.none)
    (h4 : dictLookup d "uri_id" = some uri)
    (h5 : pyInStr "ec-code" uri = false)
    (h6 : dictLookup d "bdb_wikidata" = Option.none) :
    get_valid_gene_identifier d m = Except.error ResolverError.unresolvedIdentifier := by
  unfold get_valid_gene_identifier
  rw [h1, h2, h3, h4]
  simp only [h5, Bool.false_eq_true, if_false, h6]

/-- Claim C4 witness: the amended statement at a record holding only a
plain WikiPathways URI. -/
theorem no_hint_unresolved_witness :
    get_valid_gene_identifier
        [("uri_id", "http://identifiers.org/wikipathways/WP22")] emptyManager
      = Except.error ResolverError.unresolvedIdentifier :=
  no_hint_unresolved [("uri_id", "http://identifiers.org/wikipathways/WP22")]
    emptyManager "http://identifiers.org/wikipathways/WP22"
    rfl rfl rfl rfl (by decide) rfl

/-- Claim C10: every record lacking the gene-hint keys bdb_hgncsymbol,
bdb_ncbigene and bdb_uniprot as well as the uri_id key makes the resolver
fail with the KeyError of the unconditional uri_id subscript in the ec-code
branch, before the bdb_wikidata catch-all or the final
unresolved-identifier failure can be reached. -/
theorem missing_uri_id_keyError (d : NodeDict) (m : HgncManager)
    (h1 : dictLookup d "bdb_hgncsymbol" = Option.none)
    (h2 : dictLookup d "bdb_ncbigene" = Option.none)
    (h3 : dictLookup d "bdb_uniprot" = Option.none)
    (h4 : dictLookup d "uri_id" = Option.none) :
    get_valid_gene_identifier d m = Except.error (ResolverError.keyError "uri_id") := by
  unfold get_valid_gene_identifier
  rw [h1, h2, h3, h4]

/-- Claim C10 witness: the statement at a record holding only an unrelated
key, even with the catch-all key present. -/
theorem missing_uri_id_keyError_witness :
    get_valid_gene_identifier [("bdb_wikidata", "Q123"), ("name", "ACE2")] emptyManager
      = Except.error (ResolverError.keyError "uri_id") :=
  missing_uri_id_keyError [("bdb_wikidata", "Q123"), ("name", "ACE2")] emptyManager
    rfl rfl rfl rfl

/-! ## Type-statistics counter (pathme/utils.py, get_entry_statitics)

An occurrence in types_list is a single type name or a Python set of
co-occurring type names; the set is modelled by the list of its members
(duplicate-free in every input the parsers produce), compared
extensionally.  The counts dictionary is a defaultdict int: an association
list in insertion order whose increment touches the first binding of the
key or appends a fresh one. -/

/-- An entry of types_list: one type name, or a set of co-occurring names. -/
inductive EntryTypes where
  | single (t : String)
  | tset (ts : List String)
deriving DecidableEq, Repr

/-- Counts dictionary in insertion order. -/
abbrev DictNat := List (String × Nat)

/-- Python defaultdict int increment: add v to the first binding of k, or
append the fresh binding when k is absent. -/
def dictIncr (d : DictNat) (k : String) (v : Nat) : DictNat :=
  match d with
  | [] => [(k, v)]
  | (k2, n) :: rest => if k2 = k then (k2, n + v) :: rest else (k2, n) :: dictIncr rest k v

/-- Python inequality entry_type != primary_type between a member string
and the primary_type argument, a string or None: a string never equals
None. -/
def pyStrNeOpt (t : String) (p : Option String) : Bool :=
  match p with
  | some ps => !(t == ps)
  | Option.none => true

/-- Python equality between an occurrence and the singleton set holding
primary_type: a single (string) occurrence never equals a set, and a set
equals the singleton extensionally.  With primary_type None the literal
set holding None never equals a set of strings. -/
def eqSingletonOfPrimary (e : EntryTypes) (p : Option String) : Bool :=
  match e, p with
  | EntryTypes.tset ts, some ps => !ts.isEmpty && ts.all (fun t => t == ps)
  | _, _ => false

/-- Python equality between the primary_type argument and the literal set
holding DirectedInteraction and Interaction: primary_type is a string or
None here, and neither ever compares equal to a set, so the test of the
source is false for every such argument. -/
def primaryTypeEqDISet (p : Option String) : Bool :=
  match p with
  | some _ => false
  | Option.none => false

/-- Embeds get_entry_statitics of pathme/utils.py.  For every occurrence:
a set increments every member other than primary_type, a single name
increments that name.  When the literal key "primary_type" is in the
kwargs dict, an occurrence equal to the singleton set of primary_type
increments the synthetic Untyped counter (the concatenation is only
reachable when primary_type is a string), and a primary_type equal to the
DirectedInteraction set literal increments UntypedDirectedInteraction.
Returns the counts and the occurrence total. -/
def get_entry_statitics (types_list : List EntryTypes) (primary_type : Option String)
    (kwargs_keys : List String) : DictNat × Nat :=
  let type_statistics := types_list.foldl (fun acc entry_types =>
    let acc :=
      match entry_types with
      | EntryTypes.tset ts =>
        ts.foldl (fun a entry_type =>
          if pyStrNeOpt entry_type primary_type then dictIncr a entry_type 1 else a) acc
      | EntryTypes.single t => dictIncr acc t 1
    if "primary_type" ∈ kwargs_keys then
      let acc :=
        match primary_type with
        | some ps =>
          if eqSingletonOfPrimary entry_types (some ps) then
            dictIncr acc ("Untyped" ++ ps) 1
          else acc
        | Option.none => acc
      if primaryTypeEqDISet primary_type then
        dictIncr acc "UntypedDirectedInteraction" 1
      else acc
    else acc) []
  (type_statistics, types_list.length)

/-- Models a Python call of get_entry_statitics: because primary_type is a
declared parameter with a default, a primary_type keyword always binds the
parameter and never lands in the kwargs dict (and passing it twice is a
TypeError at the call site), so the body runs with a kwargs dict holding
only the other keywords. -/
def call_get_entry_statitics (types_list : List EntryTypes)
    (primary_type : Option String) (extra_keyword_keys : List String) : DictNat × Nat :=
  get_entry_statitics types_list primary_type
    (extra_keyword_keys.filter (fun k => !(k == "primary_type")))

/-- Auxiliary: the kwargs dict of any call never holds "primary_type". -/
theorem kwargs_no_primary_type (l : List String) :
    "primary_type" ∉ l.filter (fun k => !(k == "primary_type")) := by
  simp [List.mem_filter]

/-- Claim C2: however get_entry_statitics is called, no Untyped counter is
ever incremented.  At the failing input (the occurrence list holding
exactly the singleton set of the primary type, primary_type passed as the
keyword, any further keywords) the counts come back empty: the source
guard on "primary_type" in kwargs can never hold, and even inside that
block the second test compares primary_type itself, not the occurrence,
with the DirectedInteraction set literal. -/
theorem untyped_counters_never_incremented (extra : List String) :
    call_get_entry_statitics [EntryTypes.tset ["DataNode"]] (some "DataNode") extra
      = ([], 1) := by
  unfold call_get_entry_statitics get_entry_statitics
  simp [kwargs_no_primary_type, pyStrNeOpt]

/-- Claim C7: the counter on the list Protein, the set of Protein and
DataNode, Protein, with primary type DataNode, returns the counts mapping
holding exactly Protein with count 3 (the co-occurring DataNode label is
excluded) and the total 3. -/
theorem count_types_example :
    call_get_entry_statitics
      [EntryTypes.single "Protein", EntryTypes.tset ["Protein", "DataNode"],
       EntryTypes.single "Protein"] (some "DataNode") []
      = ([("Protein", 3)], 3) := by
  rfl

/-! ## Per-pathway rollup and global accumulator
(pathme/utils.py, get_pathway_statitics)

The BEL graph handed to the rollup comes from the excluded pybel layer; it
enters only through its per-type node and edge counts, its node and edge
totals, and its name, so it is modelled as that record of values.  The
global accumulator is a defaultdict of defaultdict int: a total function
from category and type to the running count, absent entries being zero. -/

/-- Modelled from the spec: the BEL graph as seen by the rollup, via the
pybel count_functions and count_relations summaries, the node and edge
totals, and the graph name. -/
structure BELGraph where
  name : String
  count_functions : DictNat
  count_relations : DictNat
  number_of_nodes : Nat
  number_of_edges : Nat

/-- The global accumulator: category, then type, to running total. -/
abbrev GlobalStatistics := String → String → Nat

/-- One pathway-level statistics dictionary: category name to counts. -/
abbrev PathwayStats := List (String × DictNat)

/-- The side table keyed by pathway name. -/
abbrev AllPathwaysStats := List (String × PathwayStats)

/-- Python dict assignment d at k becomes v: overwrite the first binding
of k or append a fresh one. -/
def dictSet (d : List (String × α)) (k : String) (v : α) : List (String × α) :=
  match d with
  | [] => [(k, v)]
  | (k2, w) :: rest => if k2 = k then (k2, v) :: rest else (k2, w) :: dictSet rest k v

/-- Adds v to the accumulator at category cat and type t. -/
def bumpGlobal (g : GlobalStatistics) (cat t : String) (v : Nat) : GlobalStatistics :=
  fun c x => if c = cat ∧ x = t then g c x + v else g c x

/-- Merges one category dictionary into the accumulator by summation. -/
def mergeCat (g : GlobalStatistics) (cat : String) (d : DictNat) : GlobalStatistics :=
  d.foldl (fun g2 kv => bumpGlobal g2 cat kv.1 kv.2) g

/-- Embeds the merge loop of get_pathway_statitics: for every category of
the pathway statistics, skip a falsy (empty) counts dictionary, else add
every count into the accumulator. -/
def mergeInto (g : GlobalStatistics) (ps : PathwayStats) : GlobalStatistics :=
  ps.foldl (fun g2 cd => if cd.2.isEmpty then g2 else mergeCat g2 cd.1 cd.2) g

/-- Embeds the pathway_statistics dictionary literal of
get_pathway_statitics: RDF node and interaction type counts from
get_entry_statitics (called without primary_type or extra keywords), the
BEL per-type summaries, and the bel_vs_rdf totals. -/
def pathway_statistics_entries (nodes_types edges_types : List EntryTypes)
    (bel_graph : BELGraph) : PathwayStats :=
  let rdfN := get_entry_statitics nodes_types Option.none []
  let rdfE := get_entry_statitics edges_types Option.none []
  [("RDF nodes", rdfN.1),
   ("RDF interactions", rdfE.1),
   ("BEL imported nodes", bel_graph.count_functions),
   ("BEL imported edges", bel_graph.count_relations),
   ("bel_vs_rdf",
     [("RDF nodes", rdfN.2), ("RDF interactions", rdfE.2),
      ("BEL imported nodes", bel_graph.number_of_nodes),
      ("BEL imported edges", bel_graph.number_of_edges)])]

/-- The three result shapes of get_pathway_statitics, depending on which
of the two optional keywords were supplied. -/
inductive PathwayStatsResult where
  | plain (ps : PathwayStats)
  | withGlobal (g : GlobalStatistics) (ps : PathwayStats)
  | withAll (g : GlobalStatistics) (all : AllPathwaysStats)

/-- Embeds get_pathway_statitics of pathme/utils.py.  The guard that the
pathway statistics literal is truthy always holds (it has five entries),
so with a global_statistics keyword every per-type count is added into the
accumulator; with an all_pathways_statistics keyword too, the per-pathway
detail is recorded under the graph name and both are returned. -/
def get_pathway_statitics (nodes_types edges_types : List EntryTypes) (bel_graph : BELGraph)
    (global_statistics : Option GlobalStatistics)
    (all_pathways_statistics : Option AllPathwaysStats) : PathwayStatsResult :=
  let pathway_statistics := pathway_statistics_entries nodes_types edges_types bel_graph
  match global_statistics with
  | some gs =>
    let gs2 := mergeInto gs pathway_statistics
    match all_pathways_statistics with
    | some all =>
      PathwayStatsResult.withAll gs2 (dictSet all bel_graph.name pathway_statistics)
    | Option.none => PathwayStatsResult.withGlobal gs2 pathway_statistics
  | Option.none => PathwayStatsResult.plain pathway_statistics

/-- The accumulator carried by a rollup result (zero when none was given). -/
def globalOf : PathwayStatsResult → GlobalStatistics
  | PathwayStatsResult.plain _ => fun _ _ => 0
  | PathwayStatsResult.withGlobal g _ => g
  | PathwayStatsResult.withAll g _ => g

/-- Auxiliary: merging one category dictionary adds a contribution that
does not depend on the accumulator. -/
theorem mergeCat_apply (d : DictNat) (g : GlobalStatistics) (cat c t : String) :
    mergeCat g cat d c t = g c t + mergeCat (fun _ _ => 0) cat d c t := by
  induction d generalizing g with
  | nil => simp [mergeCat]
  | cons kv rest ih =>
    have h1 : mergeCat g cat (kv :: rest) = mergeCat (bumpGlobal g cat kv.1 kv.2) cat rest := rfl
    have h2 : mergeCat (fun _ _ => 0) cat (kv :: rest)
        = mergeCat (bumpGlobal (fun _ _ => 0) cat kv.1 kv.2) cat rest := rfl
    rw [h1, h2, ih (bumpGlobal g cat kv.1 kv.2), ih (bumpGlobal (fun _ _ => 0) cat kv.1 kv.2)]
    simp only [bumpGlobal]
    by_cases hc : c = cat ∧ t = kv.1
    · rw [if_pos hc, if_pos hc]
      omega
    · rw [if_neg hc, if_neg hc]
      omega

/-- Auxiliary: merging a pathway statistics dictionary adds a contribution
that does not depend on the accumulator. -/
theorem mergeInto_apply (ps : PathwayStats) (g : GlobalStatistics) (c t : String) :
    mergeInto g ps c t = g c t + mergeInto (fun _ _ => 0) ps c t := by
  induction ps generalizing g with
  | nil => simp [mergeInto]
  | cons cd rest ih =>
    by_cases he : cd.2 = []
    · have h1 : mergeInto g (cd :: rest) = mergeInto g rest := by
        simp [mergeInto, List.foldl_cons, he]
      have h2 : mergeInto (fun _ _ => 0) (cd :: rest) = mergeInto (fun _ _ => 0) rest := by
        simp [mergeInto, List.foldl_cons, he]
      rw [h1, h2, ih g]
    · have h1 : mergeInto g (cd :: rest) = mergeInto (mergeCat g cd.1 cd.2) rest := by
        simp [mergeInto, List.foldl_cons, he]
      have h2 : mergeInto (fun _ _ => 0) (cd :: rest)
          = mergeInto (mergeCat (fun _ _ => 0) cd.1 cd.2) rest := by
        simp [mergeInto, List.foldl_cons, he]
      rw [h1, h2, ih (mergeCat g cd.1 cd.2), ih (mergeCat (fun _ _ => 0) cd.1 cd.2),
        mergeCat_apply cd.2 g cd.1 c t]
      omega

/-- Claim C6: merging the statistics of pathway one and then pathway two
into any initial global accumulator yields the same per-type totals in
every category as merging pathway two and then pathway one; the merge adds
counts pointwise and never overwrites. -/
theorem global_statistics_merge_commutes
    (n1 e1 : List EntryTypes) (b1 : BELGraph) (n2 e2 : List EntryTypes) (b2 : BELGraph)
    (g : GlobalStatistics) (c t : String) :
    globalOf (get_pathway_statitics n2 e2 b2
        (some (globalOf (get_pathway_statitics n1 e1 b1 (some g) Option.none)))
        Option.none) c t
    = globalOf (get_pathway_statitics n1 e1 b1
        (some (globalOf (get_pathway_statitics n2 e2 b2 (some g) Option.none)))
        Option.none) c t := by
  show mergeInto (mergeInto g (pathway_statistics_entries n1 e1 b1))
      (pathway_statistics_entries n2 e2 b2) c t
    = mergeInto (mergeInto g (pathway_statistics_entries n2 e2 b2))
      (pathway_statistics_entries n1 e1 b1) c t
  rw [mergeInto_apply (pathway_statistics_entries n2 e2 b2)
        (mergeInto g (pathway_statistics_entries n1 e1 b1)) c t,
      mergeInto_apply (pathway_statistics_entries n1 e1 b1) g c t,
      mergeInto_apply (pathway_statistics_entries n1 e1 b1)
        (mergeInto g (pathway_statistics_entries n2 e2 b2)) c t,
      mergeInto_apply (pathway_statistics_entries n2 e2 b2) g c t]
  omega

/-! ## Multigraph builder (pathme/wikipathways/utils.py, convert_to_nx)

The networkx MultiDiGraph is modelled by its node table in insertion order
(adding an existing node overwrites its attributes, never duplicates the
key), its list of directed multi-edges in insertion order (adding an edge
always appends a new parallel edge and silently creates missing endpoint
vertices), and the graph-level attribute mapping. -/

/-- An attribute mapping. -/
abbrev Attr := List (String × String)

/-- A networkx directed multigraph: graph attributes, node table, and the
parallel-edge list. -/
structure MultiDiGraph where
  graph_att : Attr
  nodes : List (String × Attr)
  edges : List (String × String × Attr)
deriving DecidableEq, Repr

/-- networkx add_node: overwrite the attributes of an existing key, or
append a fresh vertex. -/
def add_node (g : MultiDiGraph) (n : String) (attrs : Attr) : MultiDiGraph :=
  if n ∈ g.nodes.map Prod.fst then
    { g with nodes := g.nodes.map (fun p => if p.1 = n then (n, attrs) else p) }
  else
    { g with nodes := g.nodes ++ [(n, attrs)] }

/-- networkx add_edge on a MultiDiGraph: create missing endpoint vertices
(with empty attributes), then append the edge as a new parallel edge. -/
def add_edge (g : MultiDiGraph) (u v : String) (a : Attr) : MultiDiGraph :=
  let g1 :=
    if u ∈ g.nodes.map Prod.fst then g else { g with nodes := g.nodes ++ [(u, [])] }
  let g2 :=
    if v ∈ g1.nodes.map Prod.fst then g1 else { g1 with nodes := g1.nodes ++ [(v, [])] }
  { g2 with edges := g2.edges ++ [(u, v, a)] }

/-- Embeds convert_to_nx of pathme/wikipathways/utils.py: a MultiDiGraph
with the pathway info as graph attributes, one add_node per entry of the
node dictionary, then one add_edge per interaction triple. -/
def convert_to_nx (nodes : List (String × Attr))
    (interactions : List (String × String × Attr)) (pathway_info : Attr) : MultiDiGraph :=
  let graph : MultiDiGraph := { graph_att := pathway_info, nodes := [], edges := [] }
  let graph := nodes.foldl (fun g p => add_node g p.1 p.2) graph
  interactions.foldl (fun g t => add_edge g t.1 t.2.1 t.2.2) graph

/-- Auxiliary: adding node entries with fresh, pairwise distinct keys
appends them all, touching nothing else. -/
theorem foldl_add_node_fresh (l : List (String × Attr)) (g : MultiDiGraph)
    (hdisj : ∀ p ∈ l, p.1 ∉ g.nodes.map Prod.fst) (hnd : (l.map Prod.fst).Nodup) :
    l.foldl (fun g p => add_node g p.1 p.2) g
      = { g with nodes := g.nodes ++ l } := by
  induction l generalizing g with
  | nil => simp
  | cons p rest ih =>
    rw [List.foldl_cons]
    have hp : p.1 ∉ g.nodes.map Prod.fst := hdisj p (List.mem_cons_self p rest)
    have hstep : add_node g p.1 p.2 = { g with nodes := g.nodes ++ [p] } := by
      rw [add_node, if_neg hp]
    rw [hstep]
    have hnd1 : p.1 ∉ rest.map Prod.fst := by
      simp only [List.map_cons, List.nodup_cons] at hnd
      exact hnd.1
    have hnd2 : (rest.map Prod.fst).Nodup := by
      simp only [List.map_cons, List.nodup_cons] at hnd
      exact hnd.2
    have hdisj2 : ∀ q ∈ rest, q.1 ∉ ({ g with nodes := g.nodes ++ [p] } :
        MultiDiGraph).nodes.map Prod.fst := by
      intro q hq
      simp only [List.map_append, List.mem_append, List.map_cons, List.map_nil,
        List.mem_singleton, not_or]
      refine ⟨hdisj q (List.mem_cons_of_mem p hq), ?_⟩
      intro hqp
      exact hnd1 (hqp ▸ List.mem_map_of_mem Prod.fst hq)
    rw [ih { g with nodes := g.nodes ++ [p] } hdisj2 hnd2]
    simp [List.append_assoc]

/-- Auxiliary: adding an edge whose endpoints are present appends the edge
and leaves the node table unchanged. -/
theorem add_edge_existing (g : MultiDiGraph) (u v : String) (a : Attr)
    (hu : u ∈ g.nodes.map Prod.fst) (hv : v ∈ g.nodes.map Prod.fst) :
    add_edge g u v a = { g with edges := g.edges ++ [(u, v, a)] } := by
  simp [add_edge, hu, hv]

/-- Auxiliary: adding edges whose endpoints are all present appends them
all, in order, leaving the node table unchanged. -/
theorem foldl_add_edge_existing (l : List (String × String × Attr)) (g : MultiDiGraph)
    (h : ∀ t ∈ l, t.1 ∈ g.nodes.map Prod.fst ∧ t.2.1 ∈ g.nodes.map Prod.fst) :
    l.foldl (fun g t => add_edge g t.1 t.2.1 t.2.2) g
      = { g with edges := g.edges ++ l } := by
  induction l generalizing g with
  | nil => simp
  | cons t rest ih =>
    rw [List.foldl_cons]
    have ht := h t (List.mem_cons_self t rest)
    rw [add_edge_existing g t.1 t.2.1 t.2.2 ht.1 ht.2]
    have h2 : ∀ q ∈ rest, q.1 ∈ ({ g with edges := g.edges ++ [t] } :
        MultiDiGraph).nodes.map Prod.fst ∧
        q.2.1 ∈ ({ g with edges := g.edges ++ [t] } :
        MultiDiGraph).nodes.map Prod.fst := by
      intro q hq
      exact h q (List.mem_cons_of_mem t hq)
    rw [ih { g with edges := g.edges ++ [t] } h2]
    simp [List.append_assoc]

/-- Claim C5: for a node mapping with pairwise distinct keys and
interactions whose subjects and objects all appear among those keys, the
built multigraph has exactly one vertex per node entry and its edge list
is exactly the interaction list, so two interactions with the same ordered
pair and different attributes stay two distinct parallel edges. -/
theorem convert_to_nx_counts (nodes : List (String × Attr))
    (interactions : List (String × String × Attr)) (pathway_info : Attr)
    (hnd : (nodes.map Prod.fst).Nodup)
    (hend : ∀ t ∈ interactions,
      t.1 ∈ nodes.map Prod.fst ∧ t.2.1 ∈ nodes.map Prod.fst) :
    (convert_to_nx nodes interactions pathway_info).nodes.length = nodes.length ∧
    (convert_to_nx nodes interactions pathway_info).edges = interactions := by
  have hcv : convert_to_nx nodes interactions pathway_info
      = interactions.foldl (fun g t => add_edge g t.1 t.2.1 t.2.2)
          (nodes.foldl (fun g p => add_node g p.1 p.2)
            { graph_att := pathway_info, nodes := [], edges := [] }) := rfl
  rw [hcv,
    foldl_add_node_fresh nodes { graph_att := pathway_info, nodes := [], edges := [] }
      (by simp) hnd,
    foldl_add_edge_existing interactions _ (by simpa using hend)]
  constructor
  · simp
  · simp

/-- The example node mapping: two resolved entities A and B. -/
def exNodes : List (String × Attr) := [("A", [("label", "A")]), ("B", [("label", "B")])]

/-- The example interactions: two relations over the same ordered pair. -/
def exInteractions : List (String × String × Attr) :=
  [("A", "B", [("type", "phosphorylates")]), ("A", "B", [("type", "inhibits")])]

/-- Claim C5 witness: the statement at two nodes and two parallel
interactions over the same ordered pair with different attributes. -/
theorem convert_to_nx_counts_witness :
    (convert_to_nx exNodes exInteractions []).nodes.length = exNodes.length ∧
    (convert_to_nx exNodes exInteractions []).edges = exInteractions :=
  convert_to_nx_counts exNodes exInteractions [] (by decide) (by decide)

/-! ## Tabular exporter (pathme/utils.py, statistics_to_df)

The first pass collects the union of all type names (a Python set: only
membership and a per-export-stable iteration order matter, modelled by the
first-seen order) and the per-category type sets.  The second pass walks
the pathways in order and appends one cell per pathway to each column list
of the defaultdict list keyed by the quoted column label.  The final
pandas DataFrame constructor is an excluded collaborator: it succeeds
exactly when every column holds one cell per row. -/

/-- Adds the keys of one counts dictionary to a running union, keeping
first-seen order. -/
def addDictKeys (acc : List String) (d : DictNat) : List String :=
  d.foldl (fun a kv => if kv.1 ∈ a then a else a ++ [kv.1]) acc

/-- Embeds the column_types set of statistics_to_df: the union of all type
names seen in any counts dictionary of any pathway. -/
def collectColumnTypes (aps : AllPathwaysStats) : List String :=
  aps.foldl (fun acc p => p.2.foldl (fun acc2 cd => addDictKeys acc2 cd.2) acc) []

/-- Embeds the column_primary_types_dict of statistics_to_df, a defaultdict
set from category to the type names seen under it; only membership is ever
consumed. -/
def collectCPT (aps : AllPathwaysStats) : String → List String :=
  aps.foldl (fun f p => p.2.foldl (fun f2 cd =>
    fun cat => if cat = cd.1 then addDictKeys (f2 cat) cd.2 else f2 cat) f)
    (fun _ => [])

/-- The column label of statistics_to_df: the type name in double quotes,
a space, then the category name. -/
def colName (t cat : String) : String := "\"" ++ t ++ "\" " ++ cat

/-- Value of a counts dictionary at a key known to be present. -/
def dictGetD (d : DictNat) (k : String) : Nat := (dictLookup d k).getD 0

/-- Python defaultdict list append: append v to the column list at key k,
creating the column at its first touch. -/
def appendCell (cols : List (String × List String)) (k : String) (v : String) :
    List (String × List String) :=
  match cols with
  | [] => [(k, [v])]
  | (k2, vs) :: rest =>
    if k2 = k then (k2, vs ++ [v]) :: rest else (k2, vs) :: appendCell rest k v

/-- Embeds the per-pathway inner loops of statistics_to_df: for every
collected column type, for every category of this pathway in order, append
the count as a string when the type is among the category counts, else an
empty string when the type is known for the category globally, else
nothing. -/
def processPathway (ctList : List String) (cpt : String → List String)
    (st : PathwayStats) (cols : List (String × List String)) :
    List (String × List String) :=
  ctList.foldl (fun cols2 ct =>
    st.foldl (fun cols3 cd =>
      if ct ∈ cd.2.map Prod.fst then
        appendCell cols3 (colName ct cd.1) (toString (dictGetD cd.2 ct))
      else if ct ∈ cpt cd.1 then
        appendCell cols3 (colName ct cd.1) ""
      else cols3) cols2) cols

/-- Embeds statistics_to_df of pathme/utils.py up to the final DataFrame
call: the row index (one pathway name per pathway, in order) and the
column dictionary of cell lists. -/
def statistics_to_df (aps : AllPathwaysStats) :
    List String × List (String × List String) :=
  let ctList := collectColumnTypes aps
  let cpt := collectCPT aps
  aps.foldl (fun acc p => (acc.1 ++ [p.1], processPathway ctList cpt p.2 acc.2)) ([], [])

/-- Modelled from the spec: the pandas DataFrame constructor (excluded
collaborator) succeeds exactly when every column holds one cell per row;
on ragged columns it raises ValueError. -/
def dataFrameOk (cols : List (String × List String)) (index : List String) : Bool :=
  cols.all (fun p => p.2.length == index.length)

/-- Keys of an optional dictionary (no dictionary: no keys). -/
def optionKeys : Option DictNat → List String
  | some d => d.map Prod.fst
  | Option.none => []

/-- States the claim: a type t is observed under category c when some
pathway reports t in its counts dictionary for c. -/
def observedPair (aps : AllPathwaysStats) (t c : String) : Prop :=
  ∃ p ∈ aps, t ∈ optionKeys (dictLookup p.2 c)

/-- States the claim: the cell of one pathway at column type t and
category c — the count as a string when t was observed for the pathway
under c, the empty string otherwise. -/
def specCellValue (st : PathwayStats) (t c : String) : String :=
  match dictLookup st c with
  | some d => if t ∈ d.map Prod.fst then toString (dictGetD d t) else ""
  | Option.none => ""

/-! ### Infrastructure lemmas for the exporter proof -/

/-- A cell list after appending pending cells: absent and nothing pending
stays absent, otherwise the pending cells are appended. -/
def colAfter (prev : Option (List String)) (vs : List String) : Option (List String) :=
  match prev, vs with
  | some vs0, vs2 => some (vs0 ++ vs2)
  | Option.none, [] => Option.none
  | Option.none, vs2 => some vs2

theorem colAfter_append (o : Option (List String)) (a b : List String) :
    colAfter (colAfter o a) b = colAfter o (a ++ b) := by
  cases o with
  | some vs0 => simp [colAfter]
  | none =>
    cases a with
    | nil => simp [colAfter]
    | cons x xs =>
      cases b <;> simp [colAfter]

theorem dictLookup_appendCell_same (cols : List (String × List String)) (k v : String) :
    dictLookup (appendCell cols k v) k = colAfter (dictLookup cols k) [v] := by
  induction cols with
  | nil => simp [appendCell, dictLookup, colAfter]
  | cons p rest ih =>
    obtain ⟨k2, vs⟩ := p
    by_cases h : k2 = k
    · simp [appendCell, dictLookup, h, colAfter]
    · simp [appendCell, dictLookup, h, ih]

theorem dictLookup_appendCell_other (cols : List (String × List String)) (k v nm : String)
    (h : nm ≠ k) :
    dictLookup (appendCell cols k v) nm = dictLookup cols nm := by
  have hkn : ¬ k = nm := fun hh => h hh.symm
  induction cols with
  | nil => simp [appendCell, dictLookup, hkn]
  | cons p rest ih =>
    obtain ⟨k2, vs⟩ := p
    by_cases h2 : k2 = k
    · have hk2nm : ¬ k2 = nm := by rw [h2]; exact hkn
      simp [appendCell, dictLookup, h2, hk2nm, hkn]
    · by_cases h3 : k2 = nm
      · simp [appendCell, dictLookup, h2, h3, hkn, h]
      · simp [appendCell, dictLookup, h2, h3, ih]

theorem keys_appendCell (cols : List (String × List String)) (k v : String) :
    (appendCell cols k v).map Prod.fst
      = if k ∈ cols.map Prod.fst then cols.map Prod.fst
        else cols.map Prod.fst ++ [k] := by
  induction cols with
  | nil => simp [appendCell]
  | cons p rest ih =>
    obtain ⟨k2, vs⟩ := p
    by_cases h : k2 = k
    · simp [appendCell, h]
    · have hne : ¬ k = k2 := fun hh => h hh.symm
      by_cases h2 : k ∈ rest.map Prod.fst
      · simp [appendCell, h, ih, h2, hne]
      · simp [appendCell, h, ih, h2, hne]

theorem nodup_keys_appendCell (cols : List (String × List String)) (k v : String)
    (h : (cols.map Prod.fst).Nodup) : ((appendCell cols k v).map Prod.fst).Nodup := by
  rw [keys_appendCell]
  by_cases h2 : k ∈ cols.map Prod.fst
  · simpa [h2] using h
  · simp only [h2, if_false]
    rw [List.nodup_append]
    exact ⟨h, List.nodup_singleton k, by simpa using h2⟩

/-- Sequence of pending append operations (column label, cell value). -/
def applyOps (cols : List (String × List String)) (ops : List (String × String)) :
    List (String × List String) :=
  ops.foldl (fun c op => appendCell c op.1 op.2) cols

theorem applyOps_append (cols : List (String × List String)) (a b : List (String × String)) :
    applyOps cols (a ++ b) = applyOps (applyOps cols a) b := by
  simp [applyOps, List.foldl_append]

theorem dictLookup_applyOps (ops : List (String × String))
    (cols : List (String × List String)) (nm : String) :
    dictLookup (applyOps cols ops) nm
      = colAfter (dictLookup cols nm)
          ((ops.filter (fun op => op.1 == nm)).map Prod.snd) := by
  induction ops generalizing cols with
  | nil =>
    cases h : dictLookup cols nm <;> simp [applyOps, colAfter, h]
  | cons op rest ih =>
    have hstep : applyOps cols (op :: rest) = applyOps (appendCell cols op.1 op.2) rest := rfl
    rw [hstep, ih (appendCell cols op.1 op.2)]
    by_cases h : op.1 = nm
    · subst h
      rw [dictLookup_appendCell_same cols op.1 op.2, colAfter_append]
      simp [List.filter_cons]
    · rw [dictLookup_appendCell_other cols op.1 op.2 nm (fun hh => h hh.symm)]
      simp [List.filter_cons, h]

theorem dictLookup_eq_some_mem {α : Type} (d : List (String × α)) (k : String) (v : α)
    (h : dictLookup d k = some v) : (k, v) ∈ d := by
  induction d with
  | nil => simp [dictLookup] at h
  | cons p rest ih =>
    obtain ⟨k2, w⟩ := p
    by_cases h2 : k2 = k
    · subst h2
      have hwv : w = v := by simpa [dictLookup] using h
      subst hwv
      exact List.mem_cons_self _ _
    · simp only [dictLookup, if_neg h2] at h
      exact List.mem_cons_of_mem _ (ih h)

theorem mem_dictLookup_of_nodup {α : Type} (d : List (String × α)) (k : String) (v : α)
    (hnd : (d.map Prod.fst).Nodup) (h : (k, v) ∈ d) : dictLookup d k = some v := by
  induction d with
  | nil => simp at h
  | cons p rest ih =>
    obtain ⟨k2, w⟩ := p
    simp only [List.map_cons, List.nodup_cons] at hnd
    rcases List.mem_cons.mp h with h1 | h1
    · have hk : k = k2 := congrArg Prod.fst h1
      have hv : v = w := congrArg Prod.snd h1
      simp [dictLookup, hk.symm, hv]
    · have hk2 : ¬ k2 = k := by
        intro hh
        subst hh
        exact hnd.1 (List.mem_map_of_mem Prod.fst h1)
      simp only [dictLookup, if_neg hk2]
      exact ih hnd.2 h1

theorem mem_addDictKeys (d : DictNat) (acc : List String) (x : String) :
    x ∈ addDictKeys acc d ↔ x ∈ acc ∨ x ∈ d.map Prod.fst := by
  induction d generalizing acc with
  | nil => simp [addDictKeys]
  | cons kv rest ih =>
    have hstep : addDictKeys acc (kv :: rest)
        = addDictKeys (if kv.1 ∈ acc then acc else acc ++ [kv.1]) rest := rfl
    by_cases h : kv.1 ∈ acc
    · rw [hstep, if_pos h, ih]
      simp only [List.map_cons, List.mem_cons]
      constructor
      · rintro (ha | hr)
        · exact Or.inl ha
        · exact Or.inr (Or.inr hr)
      · rintro (ha | hx | hr)
        · exact Or.inl ha
        · exact Or.inl (hx ▸ h)
        · exact Or.inr hr
    · rw [hstep, if_neg h, ih]
      simp only [List.map_cons, List.mem_cons, List.mem_append, List.mem_singleton]
      tauto

theorem nodup_addDictKeys (d : DictNat) (acc : List String) (h : acc.Nodup) :
    (addDictKeys acc d).Nodup := by
  induction d generalizing acc with
  | nil => exact h
  | cons kv rest ih =>
    have hstep : addDictKeys acc (kv :: rest)
        = addDictKeys (if kv.1 ∈ acc then acc else acc ++ [kv.1]) rest := rfl
    rw [hstep]
    by_cases h2 : kv.1 ∈ acc
    · rw [if_pos h2]
      exact ih acc h
    · rw [if_neg h2]
      refine ih _ ?_
      rw [List.nodup_append]
      exact ⟨h, List.nodup_singleton _, by simpa using h2⟩

theorem mem_foldl_addDictKeys (st : PathwayStats) (acc : List String) (x : String) :
    x ∈ st.foldl (fun acc2 cd => addDictKeys acc2 cd.2) acc
      ↔ x ∈ acc ∨ ∃ cd ∈ st, x ∈ cd.2.map Prod.fst := by
  induction st generalizing acc with
  | nil => simp
  | cons cd rest ih =>
    rw [List.foldl_cons, ih, mem_addDictKeys]
    simp only [List.mem_cons, exists_eq_or_imp]
    tauto

theorem nodup_foldl_addDictKeys (st : PathwayStats) (acc : List String) (h : acc.Nodup) :
    (st.foldl (fun acc2 cd => addDictKeys acc2 cd.2) acc).Nodup := by
  induction st generalizing acc with
  | nil => exact h
  | cons cd rest ih =>
    rw [List.foldl_cons]
    exact ih _ (nodup_addDictKeys cd.2 acc h)

theorem mem_collectColumnTypes (aps : AllPathwaysStats) (x : String) :
    x ∈ collectColumnTypes aps
      ↔ ∃ p ∈ aps, ∃ cd ∈ p.2, x ∈ cd.2.map Prod.fst := by
  suffices hgen : ∀ (l : AllPathwaysStats) (acc : List String),
      x ∈ l.foldl (fun acc2 p => p.2.foldl (fun acc3 cd => addDictKeys acc3 cd.2) acc2) acc
        ↔ x ∈ acc ∨ ∃ p ∈ l, ∃ cd ∈ p.2, x ∈ cd.2.map Prod.fst by
    simpa [collectColumnTypes] using hgen aps []
  intro l
  induction l with
  | nil => simp
  | cons p rest ih =>
    intro acc
    rw [List.foldl_cons, ih, mem_foldl_addDictKeys,
      List.exists_mem_cons_iff (fun q => ∃ cd ∈ q.2, x ∈ cd.2.map Prod.fst) p rest,
      or_assoc]

theorem nodup_collectColumnTypes (aps : AllPathwaysStats) :
    (collectColumnTypes aps).Nodup := by
  suffices hgen : ∀ (l : AllPathwaysStats) (acc : List String), acc.Nodup →
      (l.foldl (fun acc2 p => p.2.foldl (fun acc3 cd => addDictKeys acc3 cd.2) acc2)
        acc).Nodup by
    exact hgen aps [] List.nodup_nil
  intro l
  induction l with
  | nil => exact fun acc h => h
  | cons p rest ih =>
    intro acc h
    rw [List.foldl_cons]
    exact ih _ (nodup_foldl_addDictKeys p.2 acc h)

theorem mem_foldl_cpt_inner (st : PathwayStats) (f : String → List String) (c x : String) :
    x ∈ (st.foldl (fun f2 cd =>
        fun cat => if cat = cd.1 then addDictKeys (f2 cat) cd.2 else f2 cat) f) c
      ↔ x ∈ f c ∨ ∃ cd ∈ st, cd.1 = c ∧ x ∈ cd.2.map Prod.fst := by
  induction st generalizing f with
  | nil => simp
  | cons cd rest ih =>
    rw [List.foldl_cons, ih,
      List.exists_mem_cons_iff (fun cd2 => cd2.1 = c ∧ x ∈ cd2.2.map Prod.fst) cd rest]
    by_cases h : c = cd.1
    · subst h
      simp only [eq_self_iff_true, if_true, mem_addDictKeys, true_and]
      rw [or_assoc]
    · have hne : ¬ cd.1 = c := fun hh => h hh.symm
      simp only [if_neg h, hne, false_and, false_or]

theorem mem_collectCPT (aps : AllPathwaysStats) (c x : String) :
    x ∈ collectCPT aps c
      ↔ ∃ p ∈ aps, ∃ cd ∈ p.2, cd.1 = c ∧ x ∈ cd.2.map Prod.fst := by
  suffices hgen : ∀ (l : AllPathwaysStats) (f : String → List String),
      x ∈ (l.foldl (fun f2 p => p.2.foldl (fun f3 cd =>
          fun cat => if cat = cd.1 then addDictKeys (f3 cat) cd.2 else f3 cat) f2) f) c
        ↔ x ∈ f c ∨ ∃ p ∈ l, ∃ cd ∈ p.2, cd.1 = c ∧ x ∈ cd.2.map Prod.fst by
    simpa [collectCPT] using hgen aps (fun _ => [])
  intro l
  induction l with
  | nil => simp
  | cons p rest ih =>
    intro f
    rw [List.foldl_cons, ih, mem_foldl_cpt_inner,
      List.exists_mem_cons_iff
        (fun q => ∃ cd ∈ q.2, cd.1 = c ∧ x ∈ cd.2.map Prod.fst) p rest,
      or_assoc]

/-- Pending cells produced by one column type against the categories of
one pathway, in iteration order. -/
def catOps (cpt : String → List String) (ct : String) (st : PathwayStats) :
    List (String × String) :=
  match st with
  | [] => []
  | cd :: rest =>
    (if ct ∈ cd.2.map Prod.fst then [(colName ct cd.1, toString (dictGetD cd.2 ct))]
     else if ct ∈ cpt cd.1 then [(colName ct cd.1, "")]
     else []) ++ catOps cpt ct rest

/-- Pending cells produced by one pathway across all column types. -/
def cellOps (ctList : List String) (cpt : String → List String) (st : PathwayStats) :
    List (String × String) :=
  match ctList with
  | [] => []
  | ct :: rest => catOps cpt ct st ++ cellOps rest cpt st

theorem foldl_cat_eq_applyOps (st : PathwayStats) (cpt : String → List String)
    (ct : String) (cols : List (String × List String)) :
    st.foldl (fun cols3 cd =>
      if ct ∈ cd.2.map Prod.fst then
        appendCell cols3 (colName ct cd.1) (toString (dictGetD cd.2 ct))
      else if ct ∈ cpt cd.1 then
        appendCell cols3 (colName ct cd.1) ""
      else cols3) cols
      = applyOps cols (catOps cpt ct st) := by
  induction st generalizing cols with
  | nil => rfl
  | cons cd rest ih =>
    rw [List.foldl_cons, catOps]
    by_cases h1 : ct ∈ cd.2.map Prod.fst
    · simp only [if_pos h1]
      rw [ih]
      rfl
    · simp only [if_neg h1]
      by_cases h2 : ct ∈ cpt cd.1
      · simp only [if_pos h2]
        rw [ih]
        rfl
      · simp only [if_neg h2]
        rw [ih]
        rfl

theorem processPathway_eq_applyOps (ctList : List String) (cpt : String → List String)
    (st : PathwayStats) (cols : List (String × List String)) :
    processPathway ctList cpt st cols = applyOps cols (cellOps ctList cpt st) := by
  induction ctList generalizing cols with
  | nil => rfl
  | cons ct rest ih =>
    have h1 : processPathway (ct :: rest) cpt st cols
        = processPathway rest cpt st (st.foldl (fun cols3 cd =>
            if ct ∈ cd.2.map Prod.fst then
              appendCell cols3 (colName ct cd.1) (toString (dictGetD cd.2 ct))
            else if ct ∈ cpt cd.1 then
              appendCell cols3 (colName ct cd.1) ""
            else cols3) cols) := rfl
    have h2 : cellOps (ct :: rest) cpt st = catOps cpt ct st ++ cellOps rest cpt st := rfl
    rw [h1, foldl_cat_eq_applyOps st cpt ct cols, ih, h2, applyOps_append]

theorem catOps_mem (cpt : String → List String) (ct : String) (st : PathwayStats)
    (op : String × String) (h : op ∈ catOps cpt ct st) :
    ∃ cd ∈ st, op.1 = colName ct cd.1 ∧
      (ct ∈ cd.2.map Prod.fst ∨ ct ∈ cpt cd.1) := by
  induction st with
  | nil => simp [catOps] at h
  | cons cd rest ih =>
    rw [catOps] at h
    rcases List.mem_append.mp h with h1 | h1
    · by_cases hc1 : ct ∈ cd.2.map Prod.fst
      · rw [if_pos hc1] at h1
        have hop : op = (colName ct cd.1, toString (dictGetD cd.2 ct)) := by
          simpa using h1
        exact ⟨cd, List.mem_cons_self _ _, by rw [hop], Or.inl hc1⟩
      · rw [if_neg hc1] at h1
        by_cases hc2 : ct ∈ cpt cd.1
        · rw [if_pos hc2] at h1
          have hop : op = (colName ct cd.1, "") := by simpa using h1
          exact ⟨cd, List.mem_cons_self _ _, by rw [hop], Or.inr hc2⟩
        · rw [if_neg hc2] at h1
          simp at h1
    · obtain ⟨cd2, hcd2, hrest⟩ := ih h1
      exact ⟨cd2, List.mem_cons_of_mem _ hcd2, hrest⟩

theorem cellOps_mem (ctList : List String) (cpt : String → List String)
    (st : PathwayStats) (op : String × String) (h : op ∈ cellOps ctList cpt st) :
    ∃ ct ∈ ctList, ∃ cd ∈ st, op.1 = colName ct cd.1 ∧
      (ct ∈ cd.2.map Prod.fst ∨ ct ∈ cpt cd.1) := by
  induction ctList with
  | nil => simp [cellOps] at h
  | cons ct rest ih =>
    rw [cellOps] at h
    rcases List.mem_append.mp h with h1 | h1
    · obtain ⟨cd, hcd, hh⟩ := catOps_mem cpt ct st op h1
      exact ⟨ct, List.mem_cons_self _ _, cd, hcd, hh⟩
    · obtain ⟨ct2, hct2, rest2⟩ := ih h1
      exact ⟨ct2, List.mem_cons_of_mem _ hct2, rest2⟩

theorem ops_filter_nil (ops : List (String × String)) (nm : String)
    (h : ∀ op ∈ ops, op.1 ≠ nm) :
    ops.filter (fun op => op.1 == nm) = [] := by
  rw [List.filter_eq_nil_iff]
  intro op hop
  simpa using h op hop

/-- Crux, per column type: against a pathway whose category keys are
duplicate-free and contain the target category, the filtered pending
cells at the target column are exactly the one spec cell. -/
theorem catOps_filter_at (cpt : String → List String) (t : String) (st : PathwayStats) :
    ∀ c : String, (st.map Prod.fst).Nodup → c ∈ st.map Prod.fst → t ∈ cpt c →
    (∀ cat ∈ st.map Prod.fst, colName t cat = colName t c → cat = c) →
    ((catOps cpt t st).filter (fun op => op.1 == colName t c)).map Prod.snd
      = [specCellValue st t c] := by
  induction st with
  | nil =>
    intro c _ hcs _ _
    simp at hcs
  | cons cd rest ih =>
    intro c hnds hcs hcpt hinjC
    simp only [List.map_cons, List.nodup_cons] at hnds
    rw [catOps, List.filter_append, List.map_append]
    by_cases hh : cd.1 = c
    · subst hh
      have hrest_nil : (catOps cpt t rest).filter (fun op => op.1 == colName t cd.1)
          = [] := by
        apply ops_filter_nil
        intro op hop
        obtain ⟨cd2, hcd2, hname, _⟩ := catOps_mem cpt t rest op hop
        rw [hname]
        intro heq
        have hc2 : cd2.1 = cd.1 := hinjC cd2.1
          (List.mem_cons_of_mem _ (List.mem_map_of_mem Prod.fst hcd2)) heq
        exact hnds.1 (hc2 ▸ List.mem_map_of_mem Prod.fst hcd2)
      rw [hrest_nil]
      have hspec : specCellValue (cd :: rest) t cd.1
          = (if t ∈ cd.2.map Prod.fst then toString (dictGetD cd.2 t) else "") := by
        simp [specCellValue, dictLookup]
      by_cases h1 : t ∈ cd.2.map Prod.fst
      · rw [if_pos h1, hspec, if_pos h1]
        simp
      · rw [if_neg h1, if_pos hcpt, hspec, if_neg h1]
        simp
    · have hcs2 : c ∈ rest.map Prod.fst := by
        simp only [List.map_cons, List.mem_cons] at hcs
        rcases hcs with h1 | h1
        · exact absurd h1.symm hh
        · exact h1
      have hhead_nil :
          ((if t ∈ cd.2.map Prod.fst then
              [(colName t cd.1, toString (dictGetD cd.2 t))]
            else if t ∈ cpt cd.1 then [(colName t cd.1, "")]
            else []).filter (fun op => op.1 == colName t c)) = [] := by
        apply ops_filter_nil
        intro op hop
        have hname : op.1 = colName t cd.1 := by
          by_cases h1 : t ∈ cd.2.map Prod.fst
          · rw [if_pos h1] at hop
            have : op = (colName t cd.1, toString (dictGetD cd.2 t)) := by simpa using hop
            rw [this]
          · rw [if_neg h1] at hop
            by_cases h2 : t ∈ cpt cd.1
            · rw [if_pos h2] at hop
              have : op = (colName t cd.1, "") := by simpa using hop
              rw [this]
            · rw [if_neg h2] at hop
              simp at hop
        rw [hname]
        intro heq
        exact hh (hinjC cd.1 (by simp) heq)
      rw [hhead_nil]
      have hspec : specCellValue (cd :: rest) t c = specCellValue rest t c := by
        simp [specCellValue, dictLookup, hh]
      rw [hspec]
      simp only [List.map_nil, List.nil_append]
      exact ih c hnds.2 hcs2 hcpt
        (fun cat hcat heq => hinjC cat (List.mem_cons_of_mem _ hcat) heq)

/-- Crux, per pathway: the filtered pending cells of one pathway at an
observed column are exactly the one spec cell of that pathway. -/
theorem cellOps_filter_at (cpt : String → List String) (st : PathwayStats) (t c : String)
    (hnds : (st.map Prod.fst).Nodup) (hcs : c ∈ st.map Prod.fst) (hcpt : t ∈ cpt c) :
    ∀ ctList : List String, ctList.Nodup → t ∈ ctList →
    (∀ ct ∈ ctList, ∀ cat ∈ st.map Prod.fst,
      colName ct cat = colName t c → ct = t ∧ cat = c) →
    ((cellOps ctList cpt st).filter (fun op => op.1 == colName t c)).map Prod.snd
      = [specCellValue st t c] := by
  intro ctList
  induction ctList with
  | nil =>
    intro _ ht _
    simp at ht
  | cons ct rest ih =>
    intro hndct ht hinjL
    rw [List.nodup_cons] at hndct
    rw [cellOps, List.filter_append, List.map_append]
    by_cases hct : ct = t
    · subst hct
      rw [catOps_filter_at cpt ct st c hnds hcs hcpt
        (fun cat hcat heq => (hinjL ct (List.mem_cons_self _ _) cat hcat heq).2)]
      have htail : (cellOps rest cpt st).filter (fun op => op.1 == colName ct c) = [] := by
        apply ops_filter_nil
        intro op hop
        obtain ⟨ct2, hct2, cd, hcd, hname, _⟩ := cellOps_mem rest cpt st op hop
        rw [hname]
        intro heq
        have hc2 : ct2 = ct := (hinjL ct2 (List.mem_cons_of_mem _ hct2) cd.1
          (List.mem_map_of_mem Prod.fst hcd) heq).1
        exact hndct.1 (hc2 ▸ hct2)
      rw [htail]
      simp
    · have hhead : (catOps cpt ct st).filter (fun op => op.1 == colName t c) = [] := by
        apply ops_filter_nil
        intro op hop
        obtain ⟨cd, hcd, hname, _⟩ := catOps_mem cpt ct st op hop
        rw [hname]
        intro heq
        exact hct (hinjL ct (List.mem_cons_self _ _) cd.1
          (List.mem_map_of_mem Prod.fst hcd) heq).1
      rw [hhead]
      have ht2 : t ∈ rest := by
        rcases List.mem_cons.mp ht with h1 | h1
        · exact absurd h1.symm hct
        · exact h1
      simp only [List.map_nil, List.nil_append]
      exact ih hndct.2 ht2
        (fun ct2 hct2 cat hcat heq => hinjL ct2 (List.mem_cons_of_mem _ hct2) cat hcat heq)

/-- The second pass of statistics_to_df over a list of pathways, from an
arbitrary accumulator of rows so far and columns so far. -/
def statsFold (ctList : List String) (cpt : String → List String)
    (l : AllPathwaysStats) (acc : List String × List (String × List String)) :
    List String × List (String × List String) :=
  l.foldl (fun acc2 p => (acc2.1 ++ [p.1], processPathway ctList cpt p.2 acc2.2)) acc

theorem statistics_to_df_eq_statsFold (aps : AllPathwaysStats) :
    statistics_to_df aps
      = statsFold (collectColumnTypes aps) (collectCPT aps) aps ([], []) := rfl

theorem statsFold_rows (ctList : List String) (cpt : String → List String)
    (l : AllPathwaysStats) :
    ∀ acc, (statsFold ctList cpt l acc).1 = acc.1 ++ l.map Prod.fst := by
  induction l with
  | nil =>
    intro acc
    simp [statsFold]
  | cons p rest ih =>
    intro acc
    have hstep : statsFold ctList cpt (p :: rest) acc
        = statsFold ctList cpt rest
            (acc.1 ++ [p.1], processPathway ctList cpt p.2 acc.2) := rfl
    rw [hstep, ih]
    simp

theorem statsFold_lookup (ctList : List String) (cpt : String → List String)
    (t c : String) :
    ∀ l : AllPathwaysStats,
    (∀ p ∈ l, ((cellOps ctList cpt p.2).filter
        (fun op => op.1 == colName t c)).map Prod.snd = [specCellValue p.2 t c]) →
    ∀ acc, dictLookup (statsFold ctList cpt l acc).2 (colName t c)
      = colAfter (dictLookup acc.2 (colName t c))
          (l.map (fun p => specCellValue p.2 t c)) := by
  intro l
  induction l with
  | nil =>
    intro _ acc
    cases hx : dictLookup acc.2 (colName t c) <;> simp [statsFold, colAfter, hx]
  | cons p rest ih =>
    intro hcell acc
    have hstep : statsFold ctList cpt (p :: rest) acc
        = statsFold ctList cpt rest
            (acc.1 ++ [p.1], processPathway ctList cpt p.2 acc.2) := rfl
    rw [hstep, ih (fun q hq => hcell q (List.mem_cons_of_mem _ hq))]
    simp only
    rw [processPathway_eq_applyOps, dictLookup_applyOps,
      hcell p (List.mem_cons_self _ _), colAfter_append]
    rfl

theorem keys_applyOps_mem (ops : List (String × String)) (nm : String) :
    ∀ cols, nm ∈ (applyOps cols ops).map Prod.fst →
    nm ∈ cols.map Prod.fst ∨ nm ∈ ops.map Prod.fst := by
  induction ops with
  | nil => exact fun cols h => Or.inl h
  | cons op rest ih =>
    intro cols h
    have hstep : applyOps cols (op :: rest) = applyOps (appendCell cols op.1 op.2) rest := rfl
    rw [hstep] at h
    rcases ih _ h with h1 | h1
    · rw [keys_appendCell] at h1
      by_cases h2 : op.1 ∈ cols.map Prod.fst
      · rw [if_pos h2] at h1
        exact Or.inl h1
      · rw [if_neg h2] at h1
        rcases List.mem_append.mp h1 with h3 | h3
        · exact Or.inl h3
        · right
          have : nm = op.1 := by simpa using h3
          simp [this]
    · right
      exact List.mem_cons_of_mem _ h1

theorem nodup_keys_applyOps (ops : List (String × String)) :
    ∀ cols, (cols.map Prod.fst).Nodup →
    ((applyOps cols ops).map Prod.fst).Nodup := by
  induction ops with
  | nil => exact fun _ h => h
  | cons op rest ih =>
    intro cols h
    exact ih _ (nodup_keys_appendCell cols op.1 op.2 h)

theorem statsFold_keys (ctList : List String) (cpt : String → List String) (nm : String) :
    ∀ (l : AllPathwaysStats) (acc : List String × List (String × List String)),
    nm ∈ (statsFold ctList cpt l acc).2.map Prod.fst →
    nm ∈ acc.2.map Prod.fst ∨ ∃ p ∈ l, ∃ op ∈ cellOps ctList cpt p.2, op.1 = nm := by
  intro l
  induction l with
  | nil =>
    intro acc h
    exact Or.inl h
  | cons p rest ih =>
    intro acc h
    have hstep : statsFold ctList cpt (p :: rest) acc
        = statsFold ctList cpt rest
            (acc.1 ++ [p.1], processPathway ctList cpt p.2 acc.2) := rfl
    rw [hstep] at h
    rcases ih _ h with h1 | h1
    · rw [processPathway_eq_applyOps] at h1
      rcases keys_applyOps_mem _ nm _ h1 with h2 | h2
      · exact Or.inl h2
      · obtain ⟨op, hop, hopnm⟩ := List.mem_map.mp h2
        exact Or.inr ⟨p, List.mem_cons_self _ _, op, hop, hopnm⟩
    · obtain ⟨q, hq, hrest⟩ := h1
      exact Or.inr ⟨q, List.mem_cons_of_mem _ hq, hrest⟩

theorem nodup_keys_statsFold (ctList : List String) (cpt : String → List String) :
    ∀ (l : AllPathwaysStats) (acc : List String × List (String × List String)),
    (acc.2.map Prod.fst).Nodup →
    ((statsFold ctList cpt l acc).2.map Prod.fst).Nodup := by
  intro l
  induction l with
  | nil => exact fun _ h => h
  | cons p rest ih =>
    intro acc h
    have hstep : statsFold ctList cpt (p :: rest) acc
        = statsFold ctList cpt rest
            (acc.1 ++ [p.1], processPathway ctList cpt p.2 acc.2) := rfl
    rw [hstep]
    refine ih _ ?_
    simp only
    rw [processPathway_eq_applyOps]
    exact nodup_keys_applyOps _ _ h

theorem colAfter_none_of_ne_nil (vs : List String) (h : vs ≠ []) :
    colAfter Option.none vs = some vs := by
  cases vs with
  | nil => exact absurd rfl h
  | cons x xs => rfl

/-- Claim C8 (amended): for an all-pathways statistics mapping in which
every pathway reports the same duplicate-free category list, and whose
column labels are unambiguous (distinct observed type and category pairs
never collide after quoting), the exporter emits one row per pathway in
order; for every observed pair of type t and category c the column quoted
t, space, c holds exactly one cell per pathway, the count as a string when
t was observed for that pathway under c and the empty string otherwise;
every column is so named by some observed pair, and the DataFrame
constructor accepts the result.  Without the shared-category hypothesis
the column lists go ragged and the DataFrame constructor fails, as the
counterexample shows. -/
theorem statistics_to_df_amended (aps : AllPathwaysStats) (cats : List String)
    (hcats : ∀ p ∈ aps, p.2.map Prod.fst = cats)
    (hndcats : cats.Nodup)
    (hinj : ∀ t1 ∈ collectColumnTypes aps, ∀ t2 ∈ collectColumnTypes aps,
      ∀ c1 ∈ cats, ∀ c2 ∈ cats, colName t1 c1 = colName t2 c2 → t1 = t2 ∧ c1 = c2) :
    (statistics_to_df aps).1 = aps.map Prod.fst ∧
    (∀ t c, observedPair aps t c →
      dictLookup (statistics_to_df aps).2 (colName t c)
        = some (aps.map (fun p => specCellValue p.2 t c))) ∧
    (∀ nm ∈ (statistics_to_df aps).2.map Prod.fst,
      ∃ t c, observedPair aps t c ∧ nm = colName t c) ∧
    dataFrameOk (statistics_to_df aps).2 (statistics_to_df aps).1 = true := by
  have hobs_comp : ∀ t c, observedPair aps t c →
      t ∈ collectColumnTypes aps ∧ c ∈ cats ∧ t ∈ collectCPT aps c := by
    intro t c hobs
    obtain ⟨p, hp, hmem⟩ := hobs
    cases hdl : dictLookup p.2 c with
    | none =>
      rw [hdl] at hmem
      simp [optionKeys] at hmem
    | some d =>
      rw [hdl] at hmem
      have hmem2 : t ∈ d.map Prod.fst := hmem
      have hpd : (c, d) ∈ p.2 := dictLookup_eq_some_mem p.2 c d hdl
      refine ⟨?_, ?_, ?_⟩
      · exact (mem_collectColumnTypes aps t).mpr ⟨p, hp, (c, d), hpd, hmem2⟩
      · rw [← hcats p hp]
        exact List.mem_map_of_mem Prod.fst hpd
      · exact (mem_collectCPT aps c t).mpr ⟨p, hp, (c, d), hpd, rfl, hmem2⟩
  have hrows : (statistics_to_df aps).1 = aps.map Prod.fst := by
    rw [statistics_to_df_eq_statsFold, statsFold_rows]
    rfl
  have hlook : ∀ t c, observedPair aps t c →
      dictLookup (statistics_to_df aps).2 (colName t c)
        = some (aps.map (fun p => specCellValue p.2 t c)) := by
    intro t c hobs
    obtain ⟨hct, hc, hcpt⟩ := hobs_comp t c hobs
    have hcell : ∀ p ∈ aps, ((cellOps (collectColumnTypes aps) (collectCPT aps)
        p.2).filter (fun op => op.1 == colName t c)).map Prod.snd
        = [specCellValue p.2 t c] := by
      intro p hp
      refine cellOps_filter_at (collectCPT aps) p.2 t c ?_ ?_ hcpt
        (collectColumnTypes aps) (nodup_collectColumnTypes aps) hct ?_
      · rw [hcats p hp]
        exact hndcats
      · rw [hcats p hp]
        exact hc
      · intro ct hct2 cat hcat heq
        rw [hcats p hp] at hcat
        exact hinj ct hct2 t hct cat hcat c hc heq
    rw [statistics_to_df_eq_statsFold,
      statsFold_lookup (collectColumnTypes aps) (collectCPT aps) t c aps hcell ([], [])]
    have hnil : aps.map (fun p => specCellValue p.2 t c) ≠ [] := by
      obtain ⟨p, hp, _⟩ := hobs
      intro hmapnil
      rw [List.map_eq_nil_iff] at hmapnil
      rw [hmapnil] at hp
      simp at hp
    exact colAfter_none_of_ne_nil _ hnil
  have hcolobs : ∀ nm ∈ (statistics_to_df aps).2.map Prod.fst,
      ∃ t c, observedPair aps t c ∧ nm = colName t c := by
    intro nm hnm
    rw [statistics_to_df_eq_statsFold] at hnm
    rcases statsFold_keys (collectColumnTypes aps) (collectCPT aps) nm aps ([], []) hnm
      with h1 | h1
    · simp at h1
    · obtain ⟨p, hp, op, hop, hopnm⟩ := h1
      obtain ⟨ct, hct, cd, hcd, hname, hcond⟩ :=
        cellOps_mem (collectColumnTypes aps) (collectCPT aps) p.2 op hop
      have hndp : (p.2.map Prod.fst).Nodup := by
        rw [hcats p hp]
        exact hndcats
      refine ⟨ct, cd.1, ?_, by rw [← hopnm, hname]⟩
      rcases hcond with hcond | hcond
      · have hdl : dictLookup p.2 cd.1 = some cd.2 :=
          mem_dictLookup_of_nodup p.2 cd.1 cd.2 hndp hcd
        exact ⟨p, hp, by rw [hdl]; exact hcond⟩
      · obtain ⟨q, hq, cd2, hcd2, hc2, hmem2⟩ := (mem_collectCPT aps cd.1 ct).mp hcond
        have hndq : (q.2.map Prod.fst).Nodup := by
          rw [hcats q hq]
          exact hndcats
        have hcd2b : (cd.1, cd2.2) ∈ q.2 := by
          rw [← hc2]
          exact hcd2
        have hdl : dictLookup q.2 cd.1 = some cd2.2 :=
          mem_dictLookup_of_nodup q.2 cd.1 cd2.2 hndq hcd2b
        exact ⟨q, hq, by rw [hdl]; exact hmem2⟩
  refine ⟨hrows, hlook, hcolobs, ?_⟩
  rw [dataFrameOk, List.all_eq_true]
  intro pair hpair
  obtain ⟨t, c, hobs, hnm⟩ := hcolobs pair.1 (List.mem_map_of_mem Prod.fst hpair)
  have hndk : ((statistics_to_df aps).2.map Prod.fst).Nodup := by
    rw [statistics_to_df_eq_statsFold]
    exact nodup_keys_statsFold (collectColumnTypes aps) (collectCPT aps) aps ([], [])
      List.nodup_nil
  have hlk : dictLookup (statistics_to_df aps).2 pair.1 = some pair.2 :=
    mem_dictLookup_of_nodup _ pair.1 pair.2 hndk hpair
  rw [hnm] at hlk
  rw [hlook t c hobs] at hlk
  have hlen : pair.2.length = aps.length := by
    have hv : pair.2 = aps.map (fun p => specCellValue p.2 t c) := by
      injection hlk.symm
    rw [hv, List.length_map]
  rw [hlen, hrows, List.length_map]
  simp

/-- A ragged all-pathways mapping: one pathway reports only the nodes
category, the other only the edges category. -/
def cexAps : AllPathwaysStats :=
  [("P1", [("nodes", [("Protein", 2)])]), ("P2", [("edges", [("Gene", 1)])])]

/-- Claim C8 counterexample: on the ragged mapping the exporter emits two
rows, but the column for Gene under edges receives a single cell — the P1
cell is missing rather than the empty string the claim requires — and the
DataFrame constructor rejects the ragged columns instead of emitting one
row per pathway. -/
theorem statistics_to_df_counterexample :
    (statistics_to_df cexAps).1 = ["P1", "P2"] ∧
    dictLookup (statistics_to_df cexAps).2 (colName "Gene" "edges") = some ["1"] ∧
    dataFrameOk (statistics_to_df cexAps).2 (statistics_to_df cexAps).1 = false := by
  decide

/-- The spec example mapping, with the nodes category shared by both
pathways. -/
def exAps : AllPathwaysStats :=
  [("P1", [("nodes", [("Protein", 2)])]), ("P2", [("nodes", [("Gene", 1)])])]

/-- Claim C8 witness: the amended statement at the spec example mapping. -/
theorem statistics_to_df_amended_witness :
    (statistics_to_df exAps).1 = exAps.map Prod.fst ∧
    (∀ t c, observedPair exAps t c →
      dictLookup (statistics_to_df exAps).2 (colName t c)
        = some (exAps.map (fun p => specCellValue p.2 t c))) ∧
    (∀ nm ∈ (statistics_to_df exAps).2.map Prod.fst,
      ∃ t c, observedPair exAps t c ∧ nm = colName t c) ∧
    dataFrameOk (statistics_to_df exAps).2 (statistics_to_df exAps).1 = true :=
  statistics_to_df_amended exAps ["nodes"] (by decide) (by decide) (by decide)

end PathMe
